import Mathlib

set_option maxHeartbeats 1000000

/-! Verification of the emotion-based music recommendation pipeline
    (src/app.py, src/emotion_player/detector.py, src/emotion_player/playlist.py).
    Python floats are modelled by exact rationals, dictionaries by association
    lists in insertion order, and optional values by Option. -/

/-! ## src/emotion_player/playlist.py -/

/-- The synonym table `_SYNONYMS` of src/emotion_player/playlist.py. -/
def SYNONYMS : List (String × String) :=
  [("anger", "angry"), ("happiness", "happy"), ("sadness", "sad"), ("surprised", "surprise")]

/-- `_EMOTION_TO_QUERY_YOUTUBE` of src/emotion_player/playlist.py. -/
def EMOTION_TO_QUERY_YOUTUBE : List (String × String) :=
  [("happy", "happy mood Bollywood songs"),
   ("sad", "sad emotional songs"),
   ("angry", "rock songs playlist"),
   ("neutral", "lofi chill songs"),
   ("surprise", "party songs playlist")]

/-- `_EMOTION_TO_SPOTIFY` of src/emotion_player/playlist.py. -/
def EMOTION_TO_SPOTIFY : List (String × String) :=
  [("happy", "https://open.spotify.com/playlist/37i9dQZF1DXdPec7aLTmlC"),
   ("sad", "https://open.spotify.com/playlist/37i9dQZF1DX3YSRoSdA634"),
   ("angry", "https://open.spotify.com/playlist/37i9dQZF1DX1tyCD9QhIWF"),
   ("neutral", "https://open.spotify.com/playlist/37i9dQZF1DX8Uebhn9wzrS"),
   ("surprise", "https://open.spotify.com/playlist/37i9dQZF1DX0XUsuxWHRQd")]

/-- `_FALLBACKS` of src/emotion_player/playlist.py. -/
def FALLBACKS : List (String × String) :=
  [("fear", "https://open.spotify.com/playlist/37i9dQZF1DWXLeA8Omikj7"),
   ("disgust", "https://open.spotify.com/playlist/37i9dQZF1DX1tyCD9QhIWF")]

/-- `normalize_emotion_label` (playlist.py lines 37-39): strip, lower, fold
    synonyms; unknown labels pass through unchanged. -/
def normalize_emotion_label (label : String) : String :=
  let lbl := label.trim.toLower
  (SYNONYMS.lookup lbl).getD lbl

/-- The lookup chain of `emotion_to_query` (playlist.py line 45) as a function
    of the already-normalized label.  Python evaluates
    `table.get(lbl) or _FALLBACKS.get(lbl) or table["neutral"]`; every stored
    value is a non-empty string, so the truthiness chain is exactly the Option
    fallback chain, and `table["neutral"]` is the literal neutral entry. -/
def queryOf (lbl : String) : String :=
  ((EMOTION_TO_QUERY_YOUTUBE.lookup lbl).orElse (fun _ => FALLBACKS.lookup lbl)).getD
    "lofi chill songs"

/-- The lookup chain of `emotion_to_spotify` (playlist.py line 51). -/
def spotifyOf (lbl : String) : String :=
  ((EMOTION_TO_SPOTIFY.lookup lbl).orElse (fun _ => FALLBACKS.lookup lbl)).getD
    "https://open.spotify.com/playlist/37i9dQZF1DX8Uebhn9wzrS"

/-- `emotion_to_query` (playlist.py lines 42-45). -/
def emotion_to_query (label : String) : String :=
  queryOf (normalize_emotion_label label)

/-- `emotion_to_spotify` (playlist.py lines 48-51). -/
def emotion_to_spotify (label : String) : String :=
  spotifyOf (normalize_emotion_label label)

theorem queryOf_cases (m : String) :
    queryOf m =
      if m = "happy" then "happy mood Bollywood songs"
      else if m = "sad" then "sad emotional songs"
      else if m = "angry" then "rock songs playlist"
      else if m = "neutral" then "lofi chill songs"
      else if m = "surprise" then "party songs playlist"
      else if m = "fear" then "https://open.spotify.com/playlist/37i9dQZF1DWXLeA8Omikj7"
      else if m = "disgust" then "https://open.spotify.com/playlist/37i9dQZF1DX1tyCD9QhIWF"
      else "lofi chill songs" := by
  split_ifs with h1 h2 h3 h4 h5 h6 h7
  · subst h1; decide
  · subst h2; decide
  · subst h3; decide
  · subst h4; decide
  · subst h5; decide
  · subst h6; decide
  · subst h7; decide
  · have f1 : (m == "happy") = false := beq_eq_false_iff_ne.mpr h1
    have f2 : (m == "sad") = false := beq_eq_false_iff_ne.mpr h2
    have f3 : (m == "angry") = false := beq_eq_false_iff_ne.mpr h3
    have f4 : (m == "neutral") = false := beq_eq_false_iff_ne.mpr h4
    have f5 : (m == "surprise") = false := beq_eq_false_iff_ne.mpr h5
    have f6 : (m == "fear") = false := beq_eq_false_iff_ne.mpr h6
    have f7 : (m == "disgust") = false := beq_eq_false_iff_ne.mpr h7
    simp [queryOf, EMOTION_TO_QUERY_YOUTUBE, FALLBACKS, List.lookup,
      f1, f2, f3, f4, f5, f6, f7, Option.orElse]

theorem spotifyOf_cases (m : String) :
    spotifyOf m =
      if m = "happy" then "https://open.spotify.com/playlist/37i9dQZF1DXdPec7aLTmlC"
      else if m = "sad" then "https://open.spotify.com/playlist/37i9dQZF1DX3YSRoSdA634"
      else if m = "angry" then "https://open.spotify.com/playlist/37i9dQZF1DX1tyCD9QhIWF"
      else if m = "neutral" then "https://open.spotify.com/playlist/37i9dQZF1DX8Uebhn9wzrS"
      else if m = "surprise" then "https://open.spotify.com/playlist/37i9dQZF1DX0XUsuxWHRQd"
      else if m = "fear" then "https://open.spotify.com/playlist/37i9dQZF1DWXLeA8Omikj7"
      else if m = "disgust" then "https://open.spotify.com/playlist/37i9dQZF1DX1tyCD9QhIWF"
      else "https://open.spotify.com/playlist/37i9dQZF1DX8Uebhn9wzrS" := by
  split_ifs with h1 h2 h3 h4 h5 h6 h7
  · subst h1; decide
  · subst h2; decide
  · subst h3; decide
  · subst h4; decide
  · subst h5; decide
  · subst h6; decide
  · subst h7; decide
  · have f1 : (m == "happy") = false := beq_eq_false_iff_ne.mpr h1
    have f2 : (m == "sad") = false := beq_eq_false_iff_ne.mpr h2
    have f3 : (m == "angry") = false := beq_eq_false_iff_ne.mpr h3
    have f4 : (m == "neutral") = false := beq_eq_false_iff_ne.mpr h4
    have f5 : (m == "surprise") = false := beq_eq_false_iff_ne.mpr h5
    have f6 : (m == "fear") = false := beq_eq_false_iff_ne.mpr h6
    have f7 : (m == "disgust") = false := beq_eq_false_iff_ne.mpr h7
    simp [spotifyOf, EMOTION_TO_SPOTIFY, FALLBACKS, List.lookup,
      f1, f2, f3, f4, f5, f6, f7, Option.orElse]

/-- C10: for every input string, `emotion_to_query` and `emotion_to_spotify`
    total functions returning a non-empty recommendation: labels normalizing
    to one of the five canonical emotions map to that emotion entry, labels
    normalizing to fear or disgust map to the dedicated fallback entries, and
    every other label maps to the neutral entry.  (Both Python functions use
    only `.get` lookups, so they never raise; totality is inherent in the
    model.) -/
theorem emotion_mapping_total_and_canonical (s : String) :
    emotion_to_query s ≠ "" ∧ emotion_to_spotify s ≠ "" ∧
    (∀ p ∈ EMOTION_TO_QUERY_YOUTUBE, normalize_emotion_label s = p.1 →
      emotion_to_query s = p.2) ∧
    (∀ p ∈ EMOTION_TO_SPOTIFY, normalize_emotion_label s = p.1 →
      emotion_to_spotify s = p.2) ∧
    (∀ p ∈ FALLBACKS, normalize_emotion_label s = p.1 →
      emotion_to_query s = p.2 ∧ emotion_to_spotify s = p.2) ∧
    ((∀ p ∈ EMOTION_TO_QUERY_YOUTUBE, normalize_emotion_label s ≠ p.1) →
     (∀ p ∈ FALLBACKS, normalize_emotion_label s ≠ p.1) →
      emotion_to_query s = "lofi chill songs" ∧
      emotion_to_spotify s = "https://open.spotify.com/playlist/37i9dQZF1DX8Uebhn9wzrS") := by
  refine ⟨?_, ?_, ?_, ?_, ?_, ?_⟩
  · simp only [emotion_to_query]
    rw [queryOf_cases]
    split_ifs <;> decide
  · simp only [emotion_to_spotify]
    rw [spotifyOf_cases]
    split_ifs <;> decide
  · intro p hp hlab
    simp only [EMOTION_TO_QUERY_YOUTUBE, List.mem_cons, List.not_mem_nil, or_false] at hp
    simp only [emotion_to_query]
    rw [queryOf_cases]
    rcases hp with rfl | rfl | rfl | rfl | rfl <;> rw [hlab] <;> decide
  · intro p hp hlab
    simp only [EMOTION_TO_SPOTIFY, List.mem_cons, List.not_mem_nil, or_false] at hp
    simp only [emotion_to_spotify]
    rw [spotifyOf_cases]
    rcases hp with rfl | rfl | rfl | rfl | rfl <;> rw [hlab] <;> decide
  · intro p hp hlab
    simp only [FALLBACKS, List.mem_cons, List.not_mem_nil, or_false] at hp
    simp only [emotion_to_query, emotion_to_spotify]
    rw [queryOf_cases, spotifyOf_cases]
    rcases hp with rfl | rfl <;> rw [hlab] <;> exact ⟨by decide, by decide⟩
  · intro hy hf
    have h1 := hy ("happy", "happy mood Bollywood songs") (by decide)
    have h2 := hy ("sad", "sad emotional songs") (by decide)
    have h3 := hy ("angry", "rock songs playlist") (by decide)
    have h4 := hy ("neutral", "lofi chill songs") (by decide)
    have h5 := hy ("surprise", "party songs playlist") (by decide)
    have h6 := hf ("fear", "https://open.spotify.com/playlist/37i9dQZF1DWXLeA8Omikj7")
      (by decide)
    have h7 := hf ("disgust", "https://open.spotify.com/playlist/37i9dQZF1DX1tyCD9QhIWF")
      (by decide)
    simp only [emotion_to_query, emotion_to_spotify]
    rw [queryOf_cases, spotifyOf_cases]
    simp [h1, h2, h3, h4, h5, h6, h7]

/-! ## LabelSmoother (src/app.py lines 24-37) -/

/-- The last `n` entries of a list: the contents of `deque(maxlen = n)` after
    appending the elements of `l` in order. -/
def lastN {α : Type} (n : Nat) (l : List α) : List α := l.drop (l.length - n)

/-- First result of `Counter(buf).most_common(1)` computed by scanning the
    candidate list: the first element whose count in `buf` is maximal.
    Python Counter sorts by count with a stable sort over insertion order, so
    the first-inserted label wins ties; a left-to-right scan of `buf` keeping
    the current best unless an element strictly beats it picks the same
    element. -/
def pickTop (buf : List String) : List String → Option (String × Nat)
  | [] => none
  | a :: rest =>
    match pickTop buf rest with
    | none => some (a, buf.count a)
    | some (b, c) => if c ≤ buf.count a then some (a, buf.count a) else some (b, c)

/-- Lines 32-37 of `LabelSmoother.update`: the vote over a history: most
    frequent label and its share of the window (`top_count / len(buf)`),
    or `(None, 0.0)` when the history is empty. -/
def vote (buf : List String) : Option String × ℚ :=
  if buf = [] then (none, 0)
  else
    match pickTop buf buf with
    | some (t, c) => (some t, (c : ℚ) / buf.length)
    | none => (none, 0)

/-- State of `LabelSmoother`: configured window and the deque contents. -/
structure LabelSmoother where
  window : Nat
  buf : List String

/-- `LabelSmoother.__init__` (app.py lines 25-27): `window = max(1, int(window))`,
    empty deque of that capacity. -/
def LabelSmoother.init (window : Int) : LabelSmoother :=
  { window := (max 1 window).toNat, buf := [] }

/-- `LabelSmoother.update` (app.py lines 29-37): a truthy label (non-empty
    string) is appended to the deque, which keeps only the last `window`
    entries; the returned pair is the vote over the updated history. -/
def LabelSmoother.update (s : LabelSmoother) (label : Option String) :
    LabelSmoother × (Option String × ℚ) :=
  let buf :=
    match label with
    | some l => if l ≠ "" then lastN s.window (s.buf ++ [l]) else s.buf
    | none => s.buf
  ({ window := s.window, buf := buf }, vote buf)

/-- The pair `update` would return without a new observation (lines 32-37 on
    the untouched history). -/
def LabelSmoother.query (s : LabelSmoother) : Option String × ℚ := vote s.buf

/-- Feeding a sequence of labels one by one; returns the final smoother state
    and the result of the last `update` call. -/
def feedAll (s : LabelSmoother) : List String → LabelSmoother × (Option String × ℚ)
  | [] => (s, (none, 0))
  | l :: ls =>
    match ls with
    | [] => s.update (some l)
    | l2 :: ls2 => feedAll (s.update (some l)).1 (l2 :: ls2)

theorem lastN_of_length_le {α : Type} {n : Nat} {l : List α} (h : l.length ≤ n) :
    lastN n l = l := by
  simp [lastN, Nat.sub_eq_zero_of_le h]

theorem lastN_length {α : Type} (n : Nat) (l : List α) :
    (lastN n l).length = min n l.length := by
  simp [lastN]
  omega

theorem lastN_append_lastN {α : Type} (n : Nat) (xs ys : List α) :
    lastN n (lastN n xs ++ ys) = lastN n (xs ++ ys) := by
  rcases le_or_lt xs.length n with hle | hlt
  · rw [lastN_of_length_le hle]
  · have hxlen0 : (lastN n xs).length = n := by rw [lastN_length]; omega
    set A := lastN n xs with hA
    have hxdrop : A = xs.drop (xs.length - n) := by rw [hA, lastN]
    simp only [lastN, List.length_append]
    rw [hxlen0]
    rcases le_or_lt ys.length n with hy | hy
    · rw [show n + ys.length - n = ys.length by omega,
        List.drop_append_of_le_length (show ys.length ≤ A.length by omega),
        List.drop_append_of_le_length (show xs.length + ys.length - n ≤ xs.length by omega),
        hxdrop, List.drop_drop,
        show xs.length - n + ys.length = xs.length + ys.length - n by omega]
    · rw [show n + ys.length - n = A.length + (ys.length - n) by omega,
        List.drop_append,
        show xs.length + ys.length - n = xs.length + (ys.length - n) by omega,
        List.drop_append]

theorem pickTop_eq_none_iff (buf l : List String) : pickTop buf l = none ↔ l = [] := by
  cases l with
  | nil => simp [pickTop]
  | cons a rest =>
    simp only [pickTop]
    cases pickTop buf rest with
    | none => simp
    | some p =>
      rcases p with ⟨b, c⟩
      by_cases h : c ≤ buf.count a <;> simp [h]

theorem pickTop_spec (buf : List String) :
    ∀ (l : List String) (t : String) (c : Nat), pickTop buf l = some (t, c) →
      t ∈ l ∧ c = buf.count t ∧ ∀ a ∈ l, buf.count a ≤ c := by
  intro l
  induction l with
  | nil => intro t c h; simp [pickTop] at h
  | cons a rest ih =>
    intro t c h
    simp only [pickTop] at h
    rcases hr : pickTop buf rest with _ | ⟨b, cb⟩
    · rw [hr] at h
      simp only [Option.some.injEq, Prod.mk.injEq] at h
      obtain ⟨rfl, rfl⟩ := h
      have hrest : rest = [] := (pickTop_eq_none_iff buf rest).1 hr
      subst hrest
      exact ⟨List.mem_singleton_self a, rfl, by simp⟩
    · rw [hr] at h
      obtain ⟨hb, hcb, hmax⟩ := ih b cb hr
      by_cases hc : cb ≤ buf.count a
      · simp only [hc, if_pos] at h
        simp only [Option.some.injEq, Prod.mk.injEq] at h
        obtain ⟨rfl, rfl⟩ := h
        refine ⟨List.mem_cons_self a rest, rfl, ?_⟩
        intro x hx
        rcases List.mem_cons.1 hx with rfl | hx
        · exact le_refl _
        · exact le_trans (hmax x hx) hc
      · simp only [hc, if_neg, if_false] at h
        simp only [Option.some.injEq, Prod.mk.injEq] at h
        obtain ⟨rfl, rfl⟩ := h
        refine ⟨List.mem_cons_of_mem a hb, hcb, ?_⟩
        intro x hx
        rcases List.mem_cons.1 hx with rfl | hx
        · omega
        · exact hmax x hx

theorem vote_spec {buf : List String} (h : buf ≠ []) :
    ∃ t, t ∈ buf ∧ (∀ a ∈ buf, buf.count a ≤ buf.count t) ∧
      vote buf = (some t, (buf.count t : ℚ) / buf.length) := by
  rcases hp : pickTop buf buf with _ | ⟨t, c⟩
  · exact absurd ((pickTop_eq_none_iff buf buf).1 hp) h
  · obtain ⟨ht, hc, hmax⟩ := pickTop_spec buf buf t c hp
    subst hc
    exact ⟨t, ht, hmax, by simp [vote, h, hp]⟩

theorem feedAll_spec :
    ∀ (labels : List String) (s : LabelSmoother), labels ≠ [] →
      (∀ l ∈ labels, l ≠ "") → s.buf.length ≤ s.window →
      feedAll s labels =
        ({ window := s.window, buf := lastN s.window (s.buf ++ labels) },
          vote (lastN s.window (s.buf ++ labels))) := by
  intro labels
  induction labels with
  | nil => intro s h _ _; exact absurd rfl h
  | cons l ls ih =>
    intro s _ hall hlen
    have hl : l ≠ "" := hall l (List.mem_cons_self l ls)
    cases ls with
    | nil =>
      simp [feedAll, LabelSmoother.update, hl]
    | cons l2 ls2 =>
      have hstep : (s.update (some l)).1 =
          { window := s.window, buf := lastN s.window (s.buf ++ [l]) } := by
        simp [LabelSmoother.update, hl]
      have hlen2 : (lastN s.window (s.buf ++ [l])).length ≤ s.window := by
        rw [lastN_length]; omega
      have hall2 : ∀ x ∈ l2 :: ls2, x ≠ "" := by
        intro x hx
        exact hall x (List.mem_cons_of_mem l hx)
      calc feedAll s (l :: l2 :: ls2)
        = feedAll (s.update (some l)).1 (l2 :: ls2) := by rw [feedAll]
      _ = ({ window := s.window,
              buf := lastN s.window (lastN s.window (s.buf ++ [l]) ++ (l2 :: ls2)) },
            vote (lastN s.window (lastN s.window (s.buf ++ [l]) ++ (l2 :: ls2)))) := by
            rw [hstep]
            exact ih _ (by simp) hall2 hlen2
      _ = ({ window := s.window, buf := lastN s.window (s.buf ++ l :: l2 :: ls2) },
            vote (lastN s.window (s.buf ++ l :: l2 :: ls2))) := by
            rw [lastN_append_lastN, List.append_assoc]
            rfl

/-- C2: feeding n non-empty labels into the smoother with window W >= 1,
    the last update returns a label of maximal count among the last
    min(W, n) observations, with confidence equal to that count divided by
    min(W, n); feeding the same label W times yields that label with
    confidence 1. -/
theorem smoother_window_consensus (W : Int) (labels : List String) (a : String)
    (hW : 1 ≤ W) (hne : labels ≠ []) (hall : ∀ l ∈ labels, l ≠ "") (ha : a ≠ "") :
    (∃ t, t ∈ lastN W.toNat labels ∧
        (∀ l ∈ lastN W.toNat labels,
          (lastN W.toNat labels).count l ≤ (lastN W.toNat labels).count t) ∧
        (feedAll (LabelSmoother.init W) labels).2 =
          (some t, ((lastN W.toNat labels).count t : ℚ) /
            ((min W.toNat labels.length : ℕ) : ℚ))) ∧
    (lastN W.toNat labels).length = min W.toNat labels.length ∧
    (feedAll (LabelSmoother.init W) (List.replicate W.toNat a)).2 = (some a, 1) := by
  have hWpos : 1 ≤ W.toNat := by omega
  refine ⟨?_, lastN_length _ _, ?_⟩
  · have h := feedAll_spec labels (LabelSmoother.init W) hne hall (Nat.zero_le _)
    simp only [LabelSmoother.init, max_eq_right hW, List.nil_append] at h
    simp only [LabelSmoother.init, max_eq_right hW]
    have hbufne : lastN W.toNat labels ≠ [] := by
      intro hcon
      have hlen := lastN_length W.toNat labels
      rw [hcon] at hlen
      simp only [List.length_nil] at hlen
      have hlab : labels.length ≠ 0 := fun h0 => hne (List.length_eq_zero.mp h0)
      omega
    obtain ⟨t, ht, hmax, hvote⟩ := vote_spec hbufne
    refine ⟨t, ht, hmax, ?_⟩
    rw [h, hvote, lastN_length]
  · have hne2 : List.replicate W.toNat a ≠ [] := by
      intro hcon
      have := congrArg List.length hcon
      simp at this
      omega
    have h := feedAll_spec (List.replicate W.toNat a) (LabelSmoother.init W) hne2
      (by intro x hx; rw [List.eq_of_mem_replicate hx]; exact ha)
      (Nat.zero_le _)
    simp only [LabelSmoother.init, max_eq_right hW, List.nil_append] at h
    simp only [LabelSmoother.init, max_eq_right hW]
    rw [h, lastN_of_length_le (by simp)]
    obtain ⟨t, ht, _, hvote⟩ := vote_spec hne2
    have hta : t = a := List.eq_of_mem_replicate ht
    subst hta
    rw [hvote, List.count_replicate_self, List.length_replicate]
    rw [div_self]
    exact Nat.cast_ne_zero.mpr (by omega)

theorem smoother_window_consensus_witness :
    (feedAll (LabelSmoother.init 3) (List.replicate (3 : Int).toNat "x")).2 = (some "x", 1) :=
  (smoother_window_consensus 3 ["happy", "happy", "sad"] "x" (by decide) (by decide)
    (by decide) (by decide)).2.2

theorem trim_Happiness : "Happiness".trim = "Happiness" := by
  rw [String.trim, String.toSubstring, Substring.trim]
  rw [Substring.takeWhileAux.eq_def]
  rw [Substring.takeRightWhileAux.eq_def]
  decide

theorem normalize_Happiness : normalize_emotion_label "Happiness" = "happy" := by
  simp only [normalize_emotion_label]
  rw [trim_Happiness, String.toLower, String.map_eq]
  decide

/-- C3 counterexample: `LabelSmoother.update` appends the raw string it
    receives, not its normalized form: feeding "Happiness" stores "Happiness"
    itself in the history, while its normalized form is "happy". -/
theorem update_appends_raw_counterexample :
    ((LabelSmoother.init 3).update (some "Happiness")).1.buf = ["Happiness"] ∧
    normalize_emotion_label "Happiness" = "happy" ∧
    "Happiness" ≠ "happy" :=
  ⟨by decide, normalize_Happiness, by decide⟩

/-- C3 amended: for every non-empty label passed to the smoother, the value
    appended to the bounded history is the raw label string exactly as
    received; no normalization happens inside `update` (src/app.py line 31
    appends `label` itself; normalization is applied by callers such as
    app.py line 110 before the smoother is consulted). -/
theorem update_appends_raw (s : LabelSmoother) (l : String) (h : l ≠ "") :
    (s.update (some l)).1.buf = lastN s.window (s.buf ++ [l]) := by
  simp [LabelSmoother.update, h]

theorem update_appends_raw_witness :
    ((LabelSmoother.init 2).update (some "HAPPY ")).1.buf =
      lastN (LabelSmoother.init 2).window ((LabelSmoother.init 2).buf ++ ["HAPPY "]) :=
  update_appends_raw (LabelSmoother.init 2) "HAPPY " (by decide)

/-- C4: updating with an absent or empty label leaves the history unchanged
    and returns exactly what an update-free query over the current history
    returns; with an empty history the result is `(none, 0)`. -/
theorem update_absent_label_noop (s : LabelSmoother) (lab : Option String)
    (h : lab = none ∨ lab = some "") :
    (s.update lab).1 = s ∧ (s.update lab).2 = s.query ∧
    (s.buf = [] → (s.update lab).2 = (none, 0)) := by
  have hbuf : (s.update lab).1 = s := by
    rcases h with rfl | rfl <;> simp [LabelSmoother.update]
  have hres : (s.update lab).2 = vote s.buf := by
    rcases h with rfl | rfl <;> simp [LabelSmoother.update]
  refine ⟨hbuf, hres, ?_⟩
  intro hempty
  rw [hres, hempty]
  simp [vote]

theorem update_absent_label_noop_witness :
    ((LabelSmoother.init 3).update none).1 = LabelSmoother.init 3 :=
  (update_absent_label_noop (LabelSmoother.init 3) none (Or.inl rfl)).1

/-! ## Trigger Controller (spec section 4.5) -/

/-- `TriggerState` (spec section 3): the trigger bookkeeping `main` keeps in
    src/app.py (`last_played_label`, `last_play_time`). -/
structure TriggerState where
  last_triggered_label : Option String
  last_trigger_time : ℚ

/-- Modelled from the spec: the Trigger Controller decision `shouldTrigger`
    is not present under src/ — src/app.py parses the `--threshold` and
    `--cooldown` options and declares the trigger state, but its current
    snapshot-mode `main` contains no automatic trigger routine.  Policy from
    spec section 4.5: return true iff the label is non-empty, confidence is
    at least the threshold, and (no label was ever triggered OR the cooldown
    elapsed OR the label differs from the last triggered one); on a true
    decision record the label and the time. -/
def shouldTrigger (label : Option String) (confidence now threshold cooldownSeconds : ℚ)
    (st : TriggerState) : Bool × TriggerState :=
  let nonempty : Bool := match label with | none => false | some l => decide (l ≠ "")
  let allowed : Bool :=
    match st.last_triggered_label with
    | none => true
    | some _ =>
      decide (cooldownSeconds ≤ now - st.last_trigger_time) ||
        decide (label ≠ st.last_triggered_label)
  if nonempty && decide (threshold ≤ confidence) && allowed then
    (true, { last_triggered_label := label, last_trigger_time := now })
  else (false, st)

theorem shouldTrigger_fire_iff (label : Option String)
    (confidence now threshold cooldownSeconds : ℚ) (st : TriggerState) :
    (shouldTrigger label confidence now threshold cooldownSeconds st).1 = true ↔
      ((∃ l, label = some l ∧ l ≠ "") ∧ threshold ≤ confidence ∧
        (st.last_triggered_label = none ∨
          cooldownSeconds ≤ now - st.last_trigger_time ∨
          label ≠ st.last_triggered_label)) := by
  obtain ⟨lastL, lastT⟩ := st
  cases label with
  | none => simp [shouldTrigger]
  | some l =>
    cases lastL with
    | none =>
      by_cases hl : l = "" <;> by_cases hc : threshold ≤ confidence <;>
        simp [shouldTrigger, hl, hc]
    | some m =>
      by_cases hlm : l = m
      · subst hlm
        by_cases hl : l = "" <;> by_cases hc : threshold ≤ confidence <;>
          by_cases hcd : cooldownSeconds ≤ now - lastT <;>
          simp [shouldTrigger, hl, hc, hcd]
      · by_cases hl : l = "" <;> by_cases hc : threshold ≤ confidence <;>
          by_cases hcd : cooldownSeconds ≤ now - lastT <;>
          simp [shouldTrigger, hl, hc, hcd, hlm]

theorem shouldTrigger_state_update (label : Option String)
    (confidence now threshold cooldownSeconds : ℚ) (st : TriggerState) :
    ((shouldTrigger label confidence now threshold cooldownSeconds st).1 = true →
      (shouldTrigger label confidence now threshold cooldownSeconds st).2 =
        { last_triggered_label := label, last_trigger_time := now }) ∧
    ((shouldTrigger label confidence now threshold cooldownSeconds st).1 = false →
      (shouldTrigger label confidence now threshold cooldownSeconds st).2 = st) := by
  simp only [shouldTrigger]
  split_ifs <;> simp

/-- C1: the Trigger Controller decision returns true iff the label is
    non-empty, the confidence reaches the threshold, and (nothing was ever
    triggered, or the cooldown elapsed, or the label changed); the state is
    updated to the fired label and time exactly when it returns true.  With
    threshold 0.7 a confidence of 0.6 never triggers; a repeated label inside
    the cooldown window does not re-trigger; the same label after the
    cooldown re-triggers and refreshes the trigger time. -/
theorem trigger_controller_policy (label : Option String)
    (confidence now threshold cooldownSeconds : ℚ) (st : TriggerState) :
    ((shouldTrigger label confidence now threshold cooldownSeconds st).1 = true ↔
      ((∃ l, label = some l ∧ l ≠ "") ∧ threshold ≤ confidence ∧
        (st.last_triggered_label = none ∨
          cooldownSeconds ≤ now - st.last_trigger_time ∨
          label ≠ st.last_triggered_label))) ∧
    ((shouldTrigger label confidence now threshold cooldownSeconds st).1 = true →
      (shouldTrigger label confidence now threshold cooldownSeconds st).2 =
        { last_triggered_label := label, last_trigger_time := now }) ∧
    ((shouldTrigger label confidence now threshold cooldownSeconds st).1 = false →
      (shouldTrigger label confidence now threshold cooldownSeconds st).2 = st) ∧
    (∀ (lab : Option String) (now2 cd : ℚ) (st2 : TriggerState),
      (shouldTrigger lab (6/10) now2 (7/10) cd st2).1 = false) ∧
    (∀ (l : String) (c t0 now2 : ℚ), now2 - t0 < 45 →
      (shouldTrigger (some l) c now2 (7/10) 45
        { last_triggered_label := some l, last_trigger_time := t0 }).1 = false) ∧
    (∀ (l : String) (t0 now2 : ℚ), l ≠ "" → 45 ≤ now2 - t0 →
      shouldTrigger (some l) (8/10) now2 (7/10) 45
          { last_triggered_label := some l, last_trigger_time := t0 } =
        (true, { last_triggered_label := some l, last_trigger_time := now2 })) := by
  refine ⟨shouldTrigger_fire_iff label confidence now threshold cooldownSeconds st,
    (shouldTrigger_state_update label confidence now threshold cooldownSeconds st).1,
    (shouldTrigger_state_update label confidence now threshold cooldownSeconds st).2,
    ?_, ?_, ?_⟩
  · intro lab now2 cd st2
    rw [Bool.eq_false_iff]
    intro hfire
    have h := (shouldTrigger_fire_iff lab (6/10) now2 (7/10) cd st2).1 hfire
    have : ¬ ((7:ℚ)/10 ≤ 6/10) := by norm_num
    exact this h.2.1
  · intro l c t0 now2 hlt
    rw [Bool.eq_false_iff]
    intro hfire
    have h := (shouldTrigger_fire_iff (some l) c now2 (7/10) 45 ⟨some l, t0⟩).1 hfire
    rcases h.2.2 with h1 | h2 | h3
    · exact Option.noConfusion h1
    · exact absurd h2 (by simpa using not_le.mpr hlt)
    · exact h3 rfl
  · intro l t0 now2 hl hcd
    have hfire : (shouldTrigger (some l) (8/10) now2 (7/10) 45 ⟨some l, t0⟩).1 = true :=
      (shouldTrigger_fire_iff (some l) (8/10) now2 (7/10) 45 ⟨some l, t0⟩).2
        ⟨⟨l, rfl, hl⟩, by norm_num, Or.inr (Or.inl (by simpa using hcd))⟩
    have hupd := (shouldTrigger_state_update (some l) (8/10) now2 (7/10) 45 ⟨some l, t0⟩).1 hfire
    exact Prod.ext hfire hupd

theorem trigger_controller_policy_witness :
    (shouldTrigger (some "happy") (8/10) 0 (7/10) 45
      { last_triggered_label := none, last_trigger_time := 0 }).1 = true := by
  have h := trigger_controller_policy (some "happy") (8/10) 0 (7/10) 45
    { last_triggered_label := none, last_trigger_time := 0 }
  exact h.1.mpr ⟨⟨"happy", rfl, by decide⟩, by norm_num, Or.inl rfl⟩

/-! ## Calibration matcher (src/emotion_player/detector.py lines 56-98) -/

/-- Dot product of two equal-length vectors (`np.dot`). -/
def dot (a b : List ℚ) : ℚ := (List.zipWith (fun x y => x * y) a b).sum

/-- Sum of squares: the square of `np.linalg.norm`. -/
def sumSq (a : List ℚ) : ℚ := (a.map (fun x => x * x)).sum

/-- Exact representation of the float value `num / sqrt den` (with `den > 0`
    in every use).  The cosine similarity of the source,
    `np.dot(a, b) / (norm a * norm b)`, is represented with `num = dot a b`
    and `den = sumSq a * sumSq b`. -/
structure SimVal where
  num : ℚ
  den : ℚ
deriving DecidableEq

/-- Exact decision of `x > y` for two such values, by signs and squares;
    agrees with the real comparison whenever both dens are positive. -/
def simGT (x y : SimVal) : Bool :=
  if 0 < x.num then
    if 0 < y.num then decide (y.num ^ 2 * x.den < x.num ^ 2 * y.den) else true
  else
    if 0 < y.num then false
    else decide (x.num ^ 2 * y.den < y.num ^ 2 * x.den)

/-- The real number a `SimVal` stands for. -/
noncomputable def SimVal.toReal (x : SimVal) : ℝ := (x.num : ℝ) / Real.sqrt (x.den : ℝ)

theorem sumSq_nonneg (a : List ℚ) : 0 ≤ sumSq a := by
  apply List.sum_nonneg
  intro x hx
  simp only [List.mem_map] at hx
  obtain ⟨y, _, rfl⟩ := hx
  exact mul_self_nonneg y

theorem simGT_iff_toReal (x y : SimVal) (hx : 0 < x.den) (hy : 0 < y.den) :
    simGT x y = true ↔ y.toReal < x.toReal := by
  have hxr : (0 : ℝ) < (x.den : ℝ) := by exact_mod_cast hx
  have hyr : (0 : ℝ) < (y.den : ℝ) := by exact_mod_cast hy
  have hxs : (0 : ℝ) < Real.sqrt (x.den : ℝ) := Real.sqrt_pos.2 hxr
  have hys : (0 : ℝ) < Real.sqrt (y.den : ℝ) := Real.sqrt_pos.2 hyr
  rw [SimVal.toReal, SimVal.toReal, div_lt_div_iff₀ hys hxs]
  unfold simGT
  split_ifs with h1 h2 h2
  · simp only [decide_eq_true_eq]
    have ha : (0 : ℝ) < (y.num : ℝ) * Real.sqrt (x.den : ℝ) :=
      mul_pos (by exact_mod_cast h2) hxs
    have hb : (0 : ℝ) < (x.num : ℝ) * Real.sqrt (y.den : ℝ) :=
      mul_pos (by exact_mod_cast h1) hys
    rw [mul_self_lt_mul_self_iff ha.le hb.le]
    have e1 : ((y.num : ℝ) * Real.sqrt (x.den : ℝ)) * ((y.num : ℝ) * Real.sqrt (x.den : ℝ)) =
        (y.num : ℝ) ^ 2 * (x.den : ℝ) := by
      rw [mul_mul_mul_comm, Real.mul_self_sqrt hxr.le]
      ring
    have e2 : ((x.num : ℝ) * Real.sqrt (y.den : ℝ)) * ((x.num : ℝ) * Real.sqrt (y.den : ℝ)) =
        (x.num : ℝ) ^ 2 * (y.den : ℝ) := by
      rw [mul_mul_mul_comm, Real.mul_self_sqrt hyr.le]
      ring
    rw [e1, e2]
    constructor
    · intro h; exact_mod_cast h
    · intro h; exact_mod_cast h
  · simp only [true_iff]
    have ha : (y.num : ℝ) * Real.sqrt (x.den : ℝ) ≤ 0 :=
      mul_nonpos_of_nonpos_of_nonneg (by exact_mod_cast not_lt.1 h2) hxs.le
    have hb : (0 : ℝ) < (x.num : ℝ) * Real.sqrt (y.den : ℝ) :=
      mul_pos (by exact_mod_cast h1) hys
    exact lt_of_le_of_lt ha hb
  · simp only [false_iff, not_lt]
    have ha : (x.num : ℝ) * Real.sqrt (y.den : ℝ) ≤ 0 :=
      mul_nonpos_of_nonpos_of_nonneg (by exact_mod_cast not_lt.1 h1) hys.le
    have hb : (0 : ℝ) < (y.num : ℝ) * Real.sqrt (x.den : ℝ) :=
      mul_pos (by exact_mod_cast h2) hxs
    exact le_of_lt (lt_of_le_of_lt ha hb)
  · simp only [decide_eq_true_eq]
    have ha : (0 : ℝ) ≤ -((y.num : ℝ) * Real.sqrt (x.den : ℝ)) := by
      rw [neg_nonneg]
      exact mul_nonpos_of_nonpos_of_nonneg (by exact_mod_cast not_lt.1 h2) hxs.le
    have hb : (0 : ℝ) ≤ -((x.num : ℝ) * Real.sqrt (y.den : ℝ)) := by
      rw [neg_nonneg]
      exact mul_nonpos_of_nonpos_of_nonneg (by exact_mod_cast not_lt.1 h1) hys.le
    rw [show ((y.num : ℝ) * Real.sqrt (x.den : ℝ) < (x.num : ℝ) * Real.sqrt (y.den : ℝ)) ↔
        (-((x.num : ℝ) * Real.sqrt (y.den : ℝ)) < -((y.num : ℝ) * Real.sqrt (x.den : ℝ)))
      from (neg_lt_neg_iff).symm]
    rw [mul_self_lt_mul_self_iff hb ha]
    have e1 : (-((x.num : ℝ) * Real.sqrt (y.den : ℝ))) * (-((x.num : ℝ) * Real.sqrt (y.den : ℝ))) =
        (x.num : ℝ) ^ 2 * (y.den : ℝ) := by
      rw [neg_mul_neg, mul_mul_mul_comm, Real.mul_self_sqrt hyr.le]
      ring
    have e2 : (-((y.num : ℝ) * Real.sqrt (x.den : ℝ))) * (-((y.num : ℝ) * Real.sqrt (x.den : ℝ))) =
        (y.num : ℝ) ^ 2 * (x.den : ℝ) := by
      rw [neg_mul_neg, mul_mul_mul_comm, Real.mul_self_sqrt hxr.le]
      ring
    rw [e1, e2]
    constructor
    · intro h; exact_mod_cast h
    · intro h; exact_mod_cast h

/-- Whether the float cosine similarity of `emb` and `v` is defined: with a
    zero norm the source computes 0.0/0.0 = NaN, and a NaN comparison is
    false, so such an entry never updates the running best. -/
def simDefined (emb v : List ℚ) : Prop := sumSq emb * sumSq v ≠ 0

instance simDefined.dec (emb v : List ℚ) : Decidable (simDefined emb v) := by
  unfold simDefined
  infer_instance

/-- The exact similarity value of one profile entry:
    `np.dot(emb, v) / (norm emb * norm v)` is `dot / sqrt (sumSq emb * sumSq v)`. -/
def simValOf (emb v : List ℚ) : SimVal := ⟨dot emb v, sumSq emb * sumSq v⟩

/-- The comparison loop of `_match_with_calibration` (detector.py lines
    79-89) over the profile entries in insertion order, carrying
    `(best_emotion, best_similarity)`; the caller starts it at `(None, -1)`.
    A zero-norm entry compares NaN-false and is skipped; an entry whose
    vector length differs from the embedding makes `np.dot` raise, the
    exception reaches the handler at line 95 and the whole match returns
    None — modelled by the outer `none`. -/
def matchFold (emb : List ℚ) :
    List (String × List ℚ) → Option String × SimVal → Option (Option String × SimVal)
  | [], best => some best
  | (lab, v) :: rest, (bl, bv) =>
    if v.length ≠ emb.length then none
    else if sumSq emb * sumSq v = 0 then matchFold emb rest (bl, bv)
    else if simGT (simValOf emb v) bv then matchFold emb rest (some lab, simValOf emb v)
    else matchFold emb rest (bl, bv)

/-- detector.py lines 77-98 after a successful embedding extraction: run the
    loop from `(None, -1)`, then return the best label only if
    `best_similarity > 0.75`. -/
def matchEmbedding (emb : List ℚ) (profile : List (String × List ℚ)) : Option String :=
  match matchFold emb profile (none, ⟨-1, 1⟩) with
  | none => none
  | some (bl, bv) => if simGT bv ⟨3 / 4, 1⟩ then bl else none

/-- `_match_with_calibration` (detector.py lines 56-98): an empty or missing
    profile returns None (line 58); a failed embedding extraction or a falsy
    (empty) embedding returns None (lines 61-75); otherwise the loop and the
    acceptance threshold decide. -/
def matchWithCalibration (emb : Option (List ℚ)) (profile : List (String × List ℚ)) :
    Option String :=
  if profile = [] then none
  else
    match emb with
    | none => none
    | some e => if e = [] then none else matchEmbedding e profile

/-- Real cosine similarity of two rational vectors, exactly as the source
    computes it: `dot / (norm a * norm b)`. -/
noncomputable def cosSim (a b : List ℚ) : ℝ :=
  (dot a b : ℝ) / (Real.sqrt ((sumSq a : ℚ) : ℝ) * Real.sqrt ((sumSq b : ℚ) : ℝ))

theorem toReal_simValOf (a b : List ℚ) : (simValOf a b).toReal = cosSim a b := by
  rw [simValOf, SimVal.toReal, cosSim]
  congr 1
  push_cast
  rw [Real.sqrt_mul (by exact_mod_cast sumSq_nonneg a)]

theorem simDefined_den_pos {emb v : List ℚ} (h : simDefined emb v) :
    0 < (simValOf emb v).den := by
  have h1 := sumSq_nonneg emb
  have h2 := sumSq_nonneg v
  rcases lt_or_eq_of_le (mul_nonneg h1 h2) with hlt | heq
  · exact hlt
  · exact absurd heq.symm h

theorem matchFold_spec (emb : List ℚ) :
    ∀ (l : List (String × List ℚ)) (bl : Option String) (bv : SimVal),
      (∀ p ∈ l, p.2.length = emb.length) → 0 < bv.den →
      ∃ bl2 bv2, matchFold emb l (bl, bv) = some (bl2, bv2) ∧ 0 < bv2.den ∧
        bv.toReal ≤ bv2.toReal ∧
        (∀ p ∈ l, simDefined emb p.2 → cosSim emb p.2 ≤ bv2.toReal) ∧
        ((bl2 = bl ∧ bv2 = bv) ∨
          (∃ l₁ p l₂, l = l₁ ++ p :: l₂ ∧ simDefined emb p.2 ∧
            bl2 = some p.1 ∧ bv2 = simValOf emb p.2 ∧
            bv.toReal < cosSim emb p.2 ∧
            (∀ q ∈ l₁, simDefined emb q.2 → cosSim emb q.2 < cosSim emb p.2))) := by
  intro l
  induction l with
  | nil =>
    intro bl bv _ hbv
    exact ⟨bl, bv, rfl, hbv, le_refl _, by simp, Or.inl ⟨rfl, rfl⟩⟩
  | cons hd rest ih =>
    obtain ⟨lab, v⟩ := hd
    intro bl bv hdim hbv
    have hdimv : v.length = emb.length := hdim (lab, v) (List.mem_cons_self _ _)
    have hdimr : ∀ p ∈ rest, p.2.length = emb.length :=
      fun p hp => hdim p (List.mem_cons_of_mem _ hp)
    rw [matchFold, if_neg (by simp [hdimv])]
    by_cases hz : sumSq emb * sumSq v = 0
    · rw [if_pos hz]
      obtain ⟨bl2, bv2, heq, hpos2, hle2, hmax2, hdisj⟩ := ih bl bv hdimr hbv
      refine ⟨bl2, bv2, heq, hpos2, hle2, ?_, ?_⟩
      · intro p hp hdef
        rcases List.mem_cons.1 hp with rfl | hp
        · exact absurd hz hdef
        · exact hmax2 p hp hdef
      · rcases hdisj with hsame | ⟨l₁, p, l₂, happ, hdef, hbl2, hbv2, hlt, hfirst⟩
        · exact Or.inl hsame
        · refine Or.inr ⟨(lab, v) :: l₁, p, l₂, by rw [happ, List.cons_append], hdef, hbl2, hbv2, hlt, ?_⟩
          intro q hq hdefq
          rcases List.mem_cons.1 hq with rfl | hq
          · exact absurd hz hdefq
          · exact hfirst q hq hdefq
    · rw [if_neg hz]
      have hdpos : 0 < (simValOf emb v).den := simDefined_den_pos hz
      by_cases hgt : simGT (simValOf emb v) bv = true
      · rw [if_pos hgt]
        have hreal : bv.toReal < cosSim emb v := by
          rw [← toReal_simValOf]
          exact (simGT_iff_toReal _ _ hdpos hbv).1 hgt
        obtain ⟨bl2, bv2, heq, hpos2, hle2, hmax2, hdisj⟩ :=
          ih (some lab) (simValOf emb v) hdimr hdpos
        rw [toReal_simValOf] at hle2
        refine ⟨bl2, bv2, heq, hpos2, le_trans hreal.le hle2, ?_, ?_⟩
        · intro p hp hdef
          rcases List.mem_cons.1 hp with rfl | hp
          · exact hle2
          · exact hmax2 p hp hdef
        · rcases hdisj with ⟨hbl2, hbv2⟩ | ⟨l₁, p, l₂, happ, hdef, hbl2, hbv2, hlt, hfirst⟩
          · refine Or.inr ⟨[], (lab, v), rest, rfl, hz, hbl2, hbv2, hreal, by simp⟩
          · rw [toReal_simValOf] at hlt
            refine Or.inr ⟨(lab, v) :: l₁, p, l₂, by rw [happ, List.cons_append], hdef, hbl2, hbv2,
              lt_trans hreal hlt, ?_⟩
            intro q hq hdefq
            rcases List.mem_cons.1 hq with rfl | hq
            · exact hlt
            · exact hfirst q hq hdefq
      · rw [if_neg hgt]
        have hreal : cosSim emb v ≤ bv.toReal := by
          rw [← toReal_simValOf]
          by_contra hc
          exact hgt ((simGT_iff_toReal _ _ hdpos hbv).2 (not_le.1 hc))
        obtain ⟨bl2, bv2, heq, hpos2, hle2, hmax2, hdisj⟩ := ih bl bv hdimr hbv
        refine ⟨bl2, bv2, heq, hpos2, hle2, ?_, ?_⟩
        · intro p hp hdef
          rcases List.mem_cons.1 hp with rfl | hp
          · exact le_trans hreal hle2
          · exact hmax2 p hp hdef
        · rcases hdisj with hsame | ⟨l₁, p, l₂, happ, hdef, hbl2, hbv2, hlt, hfirst⟩
          · exact Or.inl hsame
          · refine Or.inr ⟨(lab, v) :: l₁, p, l₂, by rw [happ, List.cons_append], hdef, hbl2, hbv2, hlt, ?_⟩
            intro q hq hdefq
            rcases List.mem_cons.1 hq with rfl | hq
            · exact lt_of_le_of_lt hreal hlt
            · exact hfirst q hq hdefq

/-- C5: the calibration matcher returns the first profile label (in the
    iteration order of the profile) achieving the maximum cosine similarity with
    the embedding, and only when that maximum exceeds the acceptance
    threshold 0.75; otherwise it returns no match.  An empty profile never
    matches; a zero-norm embedding never matches; and a comparison involving
    a zero-norm vector is undefined (NaN in the source) and skipped, so a
    matching entry is always a defined comparison. -/
theorem calibration_match_first_max (emb : List ℚ) (profile : List (String × List ℚ))
    (hdim : ∀ p ∈ profile, p.2.length = emb.length) :
    matchWithCalibration (some emb) [] = none ∧
    (sumSq emb = 0 → matchWithCalibration (some emb) profile = none) ∧
    (∀ L, matchWithCalibration (some emb) profile = some L ↔
      ∃ l₁ p l₂, profile = l₁ ++ p :: l₂ ∧ p.1 = L ∧ simDefined emb p.2 ∧
        (3 / 4 : ℝ) < cosSim emb p.2 ∧
        (∀ q ∈ profile, simDefined emb q.2 → cosSim emb q.2 ≤ cosSim emb p.2) ∧
        (∀ q ∈ l₁, simDefined emb q.2 → cosSim emb q.2 < cosSim emb p.2)) := by
  have hthrR : (SimVal.mk (3 / 4) 1).toReal = 3 / 4 := by
    rw [SimVal.toReal]
    norm_num [Real.sqrt_one]
  have hinitR : (SimVal.mk (-1) 1).toReal = -1 := by
    rw [SimVal.toReal]
    norm_num [Real.sqrt_one]
  have hmain : ∀ L, matchWithCalibration (some emb) profile = some L ↔
      (∃ l₁ p l₂, profile = l₁ ++ p :: l₂ ∧ p.1 = L ∧ simDefined emb p.2 ∧
        (3 / 4 : ℝ) < cosSim emb p.2 ∧
        (∀ q ∈ profile, simDefined emb q.2 → cosSim emb q.2 ≤ cosSim emb p.2) ∧
        (∀ q ∈ l₁, simDefined emb q.2 → cosSim emb q.2 < cosSim emb p.2)) := by
    intro L
    by_cases hprof : profile = []
    · subst hprof
      constructor
      · intro h
        rw [show matchWithCalibration (some emb) [] = none from rfl] at h
        exact Option.noConfusion h
      · rintro ⟨l₁, p, l₂, happ, -⟩
        exact ((List.cons_ne_nil p l₂) (List.append_eq_nil.mp happ.symm).2).elim
    · by_cases hemb : emb = []
      · subst hemb
        constructor
        · intro h
          rw [matchWithCalibration, if_neg hprof] at h
          exact Option.noConfusion (show (none : Option String) = some L from h)
        · rintro ⟨l₁, p, l₂, happ, hpl, hdef, -⟩
          exact absurd (by rw [show sumSq ([] : List ℚ) = 0 from rfl, zero_mul]) hdef
      · have hred : matchWithCalibration (some emb) profile = matchEmbedding emb profile := by
          rw [matchWithCalibration, if_neg hprof]
          show (if emb = [] then none else matchEmbedding emb profile) = _
          rw [if_neg hemb]
        obtain ⟨bl2, bv2, heq, hpos2, hle2, hmax2, hdisj⟩ :=
          matchFold_spec emb profile none ⟨-1, 1⟩ hdim (by norm_num)
        have hfinal : matchWithCalibration (some emb) profile =
            (if simGT bv2 ⟨3 / 4, 1⟩ then bl2 else none) := by
          rw [hred, matchEmbedding, heq]
        rw [hfinal]
        constructor
        · intro h
          by_cases hgt : simGT bv2 ⟨3 / 4, 1⟩ = true
          · rw [if_pos hgt] at h
            have hthr : (3 / 4 : ℝ) < bv2.toReal := by
              have hh := (simGT_iff_toReal bv2 ⟨3 / 4, 1⟩ hpos2 (by norm_num)).1 hgt
              rwa [hthrR] at hh
            rcases hdisj with ⟨hbl2, -⟩ | ⟨l₁, p, l₂, happ, hdef, hbl2, hbv2, -, hfirst⟩
            · rw [hbl2] at h
              exact Option.noConfusion h
            · have hcool : bv2.toReal = cosSim emb p.2 := by rw [hbv2, toReal_simValOf]
              have hp1 : p.1 = L := by
                rw [hbl2] at h
                exact Option.some.inj h
              refine ⟨l₁, p, l₂, happ, hp1, hdef, by rwa [hcool] at hthr, ?_, hfirst⟩
              intro q hq hdefq
              rw [← hcool]
              exact hmax2 q hq hdefq
          · rw [if_neg hgt] at h
            exact Option.noConfusion h
        · rintro ⟨l₁, p, l₂, happ, hpl, hdef, hthr34, hmaxAll, hfirstL⟩
          have hpmem : p ∈ profile := by
            rw [happ]
            exact List.mem_append_right _ (List.mem_cons_self _ _)
          have hple : cosSim emb p.2 ≤ bv2.toReal := hmax2 p hpmem hdef
          rcases hdisj with ⟨hbl2, hbv2⟩ |
            ⟨l₁q, q, l₂q, happq, hdefq, hbl2, hbv2, -, hfirstq⟩
          · rw [hbv2, hinitR] at hple
            linarith
          · have hcs : bv2.toReal = cosSim emb q.2 := by rw [hbv2, toReal_simValOf]
            have hqp : cosSim emb q.2 ≤ cosSim emb p.2 := by
              refine hmaxAll q ?_ hdefq
              rw [happq]
              exact List.mem_append_right _ (List.mem_cons_self _ _)
            have hpq : cosSim emb p.2 ≤ cosSim emb q.2 := by rwa [hcs] at hple
            have heqpq : cosSim emb p.2 = cosSim emb q.2 := le_antisymm hpq hqp
            have hsame : p = q := by
              have hlist : l₁ ++ p :: l₂ = l₁q ++ q :: l₂q := by rw [← happ, ← happq]
              rcases List.append_eq_append_iff.1 hlist with ⟨a, ha1, ha2⟩ | ⟨c, hc1, hc2⟩
              · cases a with
                | nil =>
                  simp only [List.nil_append, List.cons.injEq] at ha2
                  exact ha2.1
                | cons x a2 =>
                  simp only [List.cons_append, List.cons.injEq] at ha2
                  have hpin : p ∈ l₁q := by
                    rw [ha1, ha2.1]
                    exact List.mem_append_right _ (List.mem_cons_self _ _)
                  exact absurd (hfirstq p hpin hdef) (by rw [heqpq]; exact lt_irrefl _)
              · cases c with
                | nil =>
                  simp only [List.nil_append, List.cons.injEq] at hc2
                  exact hc2.1.symm
                | cons x c2 =>
                  simp only [List.cons_append, List.cons.injEq] at hc2
                  have hqin : q ∈ l₁ := by
                    rw [hc1, hc2.1]
                    exact List.mem_append_right _ (List.mem_cons_self _ _)
                  have hcontr := hfirstL q hqin hdefq
                  exact absurd hcontr (by rw [heqpq]; exact lt_irrefl _)
            subst hsame
            have hgt : simGT bv2 ⟨3 / 4, 1⟩ = true := by
              rw [simGT_iff_toReal bv2 ⟨3 / 4, 1⟩ hpos2 (by norm_num), hthrR, hcs]
              exact hthr34
            rw [if_pos hgt, hbl2, hpl]
  refine ⟨rfl, ?_, hmain⟩
  · intro hz
    rw [Option.eq_none_iff_forall_not_mem]
    intro L hL
    rw [Option.mem_def] at hL
    obtain ⟨l₁, p, l₂, -, -, hdef, -⟩ := (hmain L).1 hL
    exact hdef (by rw [hz, zero_mul])

theorem calibration_match_first_max_witness :
    matchWithCalibration (some [1]) [("happy", [(1 : ℚ)])] = some "happy" := by
  have h := calibration_match_first_max [1] [("happy", [(1 : ℚ)])] (by decide)
  refine (h.2.2 "happy").2 ⟨[], ("happy", [1]), [], rfl, rfl,
    by norm_num [simDefined, sumSq], ?_, ?_, by simp⟩
  · have hd : dot [1] [(1 : ℚ)] = 1 := by simp [dot]
    have hs : sumSq [(1 : ℚ)] = 1 := by simp [sumSq]
    rw [cosSim, hd, hs]
    push_cast
    rw [Real.sqrt_one]
    norm_num
  · intro q hq hdefq
    simp only [List.mem_singleton] at hq
    subst hq
    exact le_refl _

/-! ## EmotionDetector.analyze (src/emotion_player/detector.py lines 100-143) -/

/-- `EmotionResult` (detector.py lines 15-19). -/
structure EmotionResult where
  dominant_emotion : String
  emotions : List (String × ℚ)
  score : ℚ
deriving DecidableEq

/-- One item of the raw `DeepFace.analyze` reply: `dominant = none` models a
    dict without the `dominant_emotion` key (an entirely falsy dict also has
    no such key); the two mappings model the `emotion` and `emotions` keys,
    with `[]` standing for an absent or empty (falsy) mapping. -/
structure RawItem where
  dominant : Option String
  emotion : List (String × ℚ)
  emotions : List (String × ℚ)
deriving DecidableEq

/-- Outcome of the external `DeepFace.analyze` call: the call raised, or it
    returned a list of items (`[]` models an empty reply). -/
inductive RawReply where
  | raised
  | value (xs : List RawItem)
deriving DecidableEq

/-- detector.py lines 114-143, the generic classifier path: an exception
    yields None (lines 124-127); an empty list yields None
    (`result[0] if result else None`, then `if not result`); a first item
    without `dominant_emotion` yields None (line 131); otherwise the
    lower-cased dominant label, the score mapping (`emotion` key, falling
    back to `emotions`, else empty), and the share of the dominant label in
    the total when the mapping is non-empty with positive total, else 0. -/
def resultFromRaw : RawReply → Option EmotionResult
  | .raised => none
  | .value [] => none
  | .value (item :: _) =>
    match item.dominant with
    | none => none
    | some d =>
      let dom := d.toLower
      let ems := if item.emotion ≠ [] then item.emotion else item.emotions
      let total := (ems.map Prod.snd).sum
      let score : ℚ := if ems ≠ [] ∧ 0 < total then ((ems.lookup dom).getD 0) / total else 0
      some { dominant_emotion := dom, emotions := ems, score := score }

theorem lookup_mem_of_eq_some {l : List (String × ℚ)} {k : String} {v : ℚ}
    (h : l.lookup k = some v) : (k, v) ∈ l := by
  induction l with
  | nil => simp [List.lookup] at h
  | cons p rest ih =>
    obtain ⟨a, b⟩ := p
    rw [List.lookup_cons] at h
    by_cases hk : (k == a) = true
    · rw [hk] at h
      have hae : k = a := beq_iff_eq.1 hk
      have hbv : b = v := Option.some.inj h
      rw [← hae, hbv]
      exact List.mem_cons_self _ _
    · rw [Bool.not_eq_true] at hk
      rw [hk] at h
      exact List.mem_cons_of_mem _ (ih h)

theorem lookup_getD_bounds {l : List (String × ℚ)} (hpos : ∀ q ∈ l, 0 ≤ q.2) (k : String) :
    0 ≤ (l.lookup k).getD 0 ∧ (l.lookup k).getD 0 ≤ (l.map Prod.snd).sum := by
  have hsum : ∀ x ∈ l.map Prod.snd, (0 : ℚ) ≤ x := by
    intro x hx
    obtain ⟨q, hq, rfl⟩ := List.mem_map.1 hx
    exact hpos q hq
  cases hl : l.lookup k with
  | none =>
    simp only [Option.getD_none]
    exact ⟨le_refl _, List.sum_nonneg hsum⟩
  | some v =>
    have hmem := lookup_mem_of_eq_some hl
    have hv : 0 ≤ v := hpos _ hmem
    simp only [Option.getD_some]
    refine ⟨hv, ?_⟩
    exact List.single_le_sum hsum v (List.mem_map_of_mem Prod.snd hmem)

/-- C8: on the generic path with a reply whose first item carries a dominant
    label, the returned dominant label is the reported one lower-cased, the
    score mapping is the `emotion` key with fallback to `emotions`, and the
    confidence is `scores[dominant] / sum(scores)` when the mapping is
    non-empty with positive total, else 0.0; with non-negative raw scores the
    confidence always lies in [0, 1]. -/
theorem generic_path_confidence (item : RawItem) (rest : List RawItem) (d : String)
    (hd : item.dominant = some d) :
    ∃ r, resultFromRaw (RawReply.value (item :: rest)) = some r ∧
      r.dominant_emotion = d.toLower ∧
      r.emotions = (if item.emotion ≠ [] then item.emotion else item.emotions) ∧
      (r.emotions ≠ [] ∧ 0 < (r.emotions.map Prod.snd).sum →
        r.score = ((r.emotions.lookup d.toLower).getD 0) / (r.emotions.map Prod.snd).sum) ∧
      ((r.emotions = [] ∨ (r.emotions.map Prod.snd).sum ≤ 0) → r.score = 0) ∧
      ((∀ q ∈ r.emotions, 0 ≤ q.2) → 0 ≤ r.score ∧ r.score ≤ 1) := by
  simp only [resultFromRaw, hd]
  set ems := if item.emotion ≠ [] then item.emotion else item.emotions with hems
  refine ⟨_, rfl, rfl, rfl, ?_, ?_, ?_⟩
  · intro hcond
    show (if ems ≠ [] ∧ 0 < (ems.map Prod.snd).sum then
        ((ems.lookup d.toLower).getD 0) / (ems.map Prod.snd).sum else 0) =
      ((ems.lookup d.toLower).getD 0) / (ems.map Prod.snd).sum
    exact if_pos hcond
  · intro hcond
    show (if ems ≠ [] ∧ 0 < (ems.map Prod.snd).sum then
        ((ems.lookup d.toLower).getD 0) / (ems.map Prod.snd).sum else 0) = 0
    refine if_neg ?_
    rintro ⟨hne, hpos⟩
    rcases hcond with hc | hc
    · exact hne hc
    · exact absurd hpos (not_lt.2 hc)
  · intro hpos
    have hgoal : ∀ x : ℚ, x = (if ems ≠ [] ∧ 0 < (ems.map Prod.snd).sum then
        ((ems.lookup d.toLower).getD 0) / (ems.map Prod.snd).sum else 0) →
        0 ≤ x ∧ x ≤ 1 := by
      intro x hx
      by_cases hcond : ems ≠ [] ∧ 0 < (ems.map Prod.snd).sum
      · rw [hx, if_pos hcond]
        obtain ⟨hge, hle⟩ := lookup_getD_bounds hpos d.toLower
        constructor
        · exact div_nonneg hge hcond.2.le
        · rw [div_le_one hcond.2]
          exact hle
      · rw [hx, if_neg hcond]
        exact ⟨le_refl _, by norm_num⟩
    exact hgoal _ rfl

theorem generic_path_confidence_witness :
    ∃ r, resultFromRaw (RawReply.value [⟨some "X", [], []⟩]) = some r ∧ r.score = 0 := by
  obtain ⟨r, h1, -, h3, -, h5, -⟩ :=
    generic_path_confidence ⟨some "X", [], []⟩ [] "X" rfl
  exact ⟨r, h1, h5 (Or.inl (by rw [h3]; simp))⟩

/-- The detector state consumed by `analyze`: the configuration flag, the
    loaded calibration profile (`[]` models both None and an empty, falsy,
    dict) and the sampling counter; `_calibration_check_interval` is the
    constant 5 set in `__init__` (detector.py line 32). -/
structure DetectorState where
  use_calibration : Bool
  calibration_data : List (String × List ℚ)
  counter : Nat
deriving DecidableEq

def calibrationCheckInterval : Nat := 5

/-- The per-frame external inputs one `analyze` call consumes: the outcome of
    `DeepFace.represent` (`none` models an exception or a reply without a
    truthy embedding), and the raw `DeepFace.analyze` reply. -/
structure FrameInput where
  embedding : Option (List ℚ)
  raw : RawReply

/-- `EmotionDetector.analyze` (detector.py lines 100-143), instrumented with
    a flag recording whether `_match_with_calibration` was invoked on this
    call.  With calibration enabled and a truthy profile the counter is
    incremented and the matcher runs only when `counter % 5 == 0`; a truthy
    (non-empty) matched label short-circuits with the high-confidence
    override; every other path falls back to the generic classifier. -/
def analyze (st : DetectorState) (inp : FrameInput) :
    DetectorState × Option EmotionResult × Bool :=
  if st.use_calibration ∧ st.calibration_data ≠ [] then
    let st2 : DetectorState := { st with counter := st.counter + 1 }
    if st2.counter % calibrationCheckInterval = 0 then
      match matchWithCalibration inp.embedding st.calibration_data with
      | some l =>
        if l ≠ "" then
          (st2, some { dominant_emotion := l, emotions := [(l, 100)], score := 1 }, true)
        else (st2, resultFromRaw inp.raw, true)
      | none => (st2, resultFromRaw inp.raw, true)
    else (st2, resultFromRaw inp.raw, false)
  else (st, resultFromRaw inp.raw, false)

/-- A sequence of `analyze` calls; returns the final state and the per-call
    pairs (result, matcher invoked). -/
def runAnalyze (st : DetectorState) :
    List FrameInput → DetectorState × List (Option EmotionResult × Bool)
  | [] => (st, [])
  | i :: is =>
    ((runAnalyze (analyze st i).1 is).1,
      (analyze st i).2 :: (runAnalyze (analyze st i).1 is).2)

theorem analyze_step (profile : List (String × List ℚ)) (hp : profile ≠ []) (c : Nat)
    (i : FrameInput) :
    analyze ⟨true, profile, c⟩ i =
      (⟨true, profile, c + 1⟩,
        (if (c + 1) % 5 = 0 then
          match matchWithCalibration i.embedding profile with
          | some l =>
            if l ≠ "" then
              some { dominant_emotion := l, emotions := [(l, 100)], score := 1 }
            else resultFromRaw i.raw
          | none => resultFromRaw i.raw
        else resultFromRaw i.raw),
        decide ((c + 1) % 5 = 0)) := by
  rw [analyze, if_pos (show (true = true) ∧ profile ≠ [] from ⟨rfl, hp⟩)]
  by_cases h5 : (c + 1) % calibrationCheckInterval = 0
  · rw [if_pos h5, if_pos (show (c + 1) % 5 = 0 from h5),
      show decide ((c + 1) % 5 = 0) = true from decide_eq_true h5]
    cases hm : matchWithCalibration i.embedding profile with
    | none => rfl
    | some l => by_cases hl : l = "" <;> simp [hl]
  · rw [if_neg h5, if_neg (show ¬ (c + 1) % 5 = 0 from h5),
      show decide ((c + 1) % 5 = 0) = false from decide_eq_false h5]

theorem matchWithCalibration_single (lab : String) :
    matchWithCalibration (some [1]) [(lab, [(1 : ℚ)])] = some lab := by
  rw [matchWithCalibration, if_neg (by simp)]
  show (if [(1 : ℚ)] = ([] : List ℚ) then none else matchEmbedding [1] [(lab, [1])]) = some lab
  rw [if_neg (by simp), matchEmbedding]
  have h1 : sumSq [(1 : ℚ)] = 1 := by norm_num [sumSq]
  have h2 : dot [(1 : ℚ)] [(1 : ℚ)] = 1 := by norm_num [dot]
  have hval : simValOf [(1 : ℚ)] [(1 : ℚ)] = ⟨1, 1⟩ := by
    rw [simValOf, h1, h2]
    norm_num
  have hfold : matchFold [1] [(lab, [(1 : ℚ)])] (none, ⟨-1, 1⟩) = some (some lab, ⟨1, 1⟩) := by
    rw [matchFold, if_neg (by simp), if_neg (by rw [h1]; norm_num),
      if_pos (by rw [hval, simGT]; norm_num), hval]
    rfl
  rw [hfold]
  show (if simGT ⟨1, 1⟩ ⟨3 / 4, 1⟩ then some lab else none) = some lab
  rw [if_pos (by rw [simGT]; norm_num)]

/-- C7 amended: whenever a sampled analyze call obtains a calibration match
    with a non-empty label L, analyze returns the deliberate override:
    confidence exactly 1.0, score mapping exactly L to 100.0, and L as the
    dominant label (and the matcher was indeed invoked).  The non-emptiness
    is needed because the source guards the override with the truthiness
    check `if calibrated_emotion:`, which an empty-string label fails. -/
theorem analyze_calibration_override (st : DetectorState) (inp : FrameInput) (L : String)
    (h1 : st.use_calibration = true) (h2 : st.calibration_data ≠ [])
    (h3 : (st.counter + 1) % 5 = 0)
    (h4 : matchWithCalibration inp.embedding st.calibration_data = some L)
    (h5 : L ≠ "") :
    (analyze st inp).2.1 =
      some { dominant_emotion := L, emotions := [(L, 100)], score := 1 } ∧
    (analyze st inp).2.2 = true := by
  obtain ⟨uc, cd, c⟩ := st
  simp only at h1 h2 h3 h4
  subst h1
  rw [analyze_step cd h2 c inp]
  simp [h3, h4, h5]

theorem analyze_calibration_override_witness :
    (analyze ⟨true, [("happy", [1])], 4⟩ ⟨some [1], RawReply.raised⟩).2.1 =
      some { dominant_emotion := "happy", emotions := [("happy", 100)], score := 1 } :=
  (analyze_calibration_override ⟨true, [("happy", [1])], 4⟩ ⟨some [1], RawReply.raised⟩
    "happy" rfl (by simp) (by norm_num) (matchWithCalibration_single "happy")
    (by decide)).1

/-- C7 counterexample: a sampled call whose calibration match is the empty
    string label falls through to the generic path (the source checks
    `if calibrated_emotion:`, and an empty string is falsy), so the claimed
    override result is not returned. -/
theorem analyze_calibration_empty_label_counterexample :
    matchWithCalibration (some [1]) [("", [(1 : ℚ)])] = some "" ∧
    (analyze ⟨true, [("", [1])], 4⟩ ⟨some [1], RawReply.value []⟩).2.1 = none ∧
    (analyze ⟨true, [("", [1])], 4⟩ ⟨some [1], RawReply.value []⟩).2.1 ≠
      some { dominant_emotion := "", emotions := [("", 100)], score := 1 } := by
  have hm := matchWithCalibration_single ""
  have hs := analyze_step [("", [(1 : ℚ)])] (by simp) 4 ⟨some [1], RawReply.value []⟩
  refine ⟨hm, ?_, ?_⟩
  · rw [hs]
    simp [hm, resultFromRaw]
  · rw [hs]
    simp [hm, resultFromRaw]

theorem runAnalyze_spec (profile : List (String × List ℚ)) (hp : profile ≠ []) :
    ∀ (inputs : List FrameInput) (c : Nat),
      (runAnalyze ⟨true, profile, c⟩ inputs).2.length = inputs.length ∧
      ∀ (k : Nat) (hk : k < inputs.length)
        (hk2 : k < (runAnalyze ⟨true, profile, c⟩ inputs).2.length),
        ((runAnalyze ⟨true, profile, c⟩ inputs).2[k].2 = decide ((c + k + 1) % 5 = 0)) ∧
        ((c + k + 1) % 5 ≠ 0 →
          (runAnalyze ⟨true, profile, c⟩ inputs).2[k].1 = resultFromRaw inputs[k].raw) := by
  intro inputs
  induction inputs with
  | nil =>
    intro c
    exact ⟨rfl, fun k hk _ => absurd hk (by simp)⟩
  | cons i is ih =>
    intro c
    have hstep := analyze_step profile hp c i
    have hrun : runAnalyze ⟨true, profile, c⟩ (i :: is) =
        ((runAnalyze ⟨true, profile, c + 1⟩ is).1,
          (analyze ⟨true, profile, c⟩ i).2 :: (runAnalyze ⟨true, profile, c + 1⟩ is).2) := by
      rw [runAnalyze, hstep]
    obtain ⟨ihlen, ihall⟩ := ih (c + 1)
    constructor
    · rw [hrun]
      simp [ihlen]
    · intro k hk hk2
      simp only [hrun]
      cases k with
      | zero =>
        simp only [List.getElem_cons_zero]
        rw [hstep]
        constructor
        · show decide ((c + 1) % 5 = 0) = decide ((c + 0 + 1) % 5 = 0)
          norm_num
        · intro hmod
          show (if (c + 1) % 5 = 0 then _ else resultFromRaw i.raw) = _
          rw [if_neg (by simpa using hmod)]
      | succ k =>
        have hk4 : k < is.length := by
          simp only [List.length_cons] at hk
          omega
        have hk3 : k < (runAnalyze ⟨true, profile, c + 1⟩ is).2.length := by
          rw [ihlen]
          exact hk4
        obtain ⟨hflag, hres⟩ := ihall k hk4 hk3
        constructor
        · simp only [List.getElem_cons_succ]
          rw [hflag, show c + 1 + k + 1 = c + (k + 1) + 1 by omega]
        · intro hmod
          simp only [List.getElem_cons_succ]
          exact hres (by rw [show c + 1 + k + 1 = c + (k + 1) + 1 by omega]; exact hmod)

/-- C6: with calibration enabled and a profile loaded, the calibration
    matcher is invoked exactly on every 5th analyze call (the counter,
    starting at 0, is incremented and then checked modulo 5); on every other
    call the matcher is never invoked and the call returns the generic
    classifier path on that frame raw reply. -/
theorem analyze_sampling_cadence (profile : List (String × List ℚ))
    (inputs : List FrameInput) (hp : profile ≠ []) :
    (runAnalyze ⟨true, profile, 0⟩ inputs).2.length = inputs.length ∧
    ∀ (k : Nat) (hk : k < inputs.length)
      (hk2 : k < (runAnalyze ⟨true, profile, 0⟩ inputs).2.length),
      ((runAnalyze ⟨true, profile, 0⟩ inputs).2[k].2 = true ↔ (k + 1) % 5 = 0) ∧
      ((k + 1) % 5 ≠ 0 →
        (runAnalyze ⟨true, profile, 0⟩ inputs).2[k].1 = resultFromRaw inputs[k].raw) := by
  obtain ⟨hlen, hall⟩ := runAnalyze_spec profile hp inputs 0
  refine ⟨hlen, fun k hk hk2 => ?_⟩
  obtain ⟨hflag, hres⟩ := hall k hk hk2
  constructor
  · rw [hflag, show 0 + k + 1 = k + 1 by omega]
    simp
  · intro h
    exact hres (by rw [show 0 + k + 1 = k + 1 by omega]; exact h)

theorem analyze_sampling_cadence_witness :
    (runAnalyze ⟨true, [("x", [1])], 0⟩ [⟨none, RawReply.raised⟩]).2.length = 1 :=
  (analyze_sampling_cadence [("x", [1])] [⟨none, RawReply.raised⟩] (by simp)).1

/-- The playback bookkeeping of `main` in src/app.py: `last_played_label`
    and `last_play_time`. -/
structure PipelineState where
  last_played_label : Option String
  last_play_time : ℚ
deriving DecidableEq

/-- The snapshot handling of app.py lines 109-138 after `detector.analyze`:
    with a result, normalize the label, optionally fold fear to neutral,
    open the platform and record the label and time; with no result, print a
    message and leave every piece of state untouched.  The second component
    is the emotion played (none when nothing was played). -/
def handleSnapshot (st : PipelineState) (now : ℚ) (ignore_fear : Bool)
    (result : Option EmotionResult) : PipelineState × Option String :=
  match result with
  | none => (st, none)
  | some r =>
    let e0 := normalize_emotion_label r.dominant_emotion
    let e := if ignore_fear ∧ e0 = "fear" then "neutral" else e0
    ({ last_played_label := some e, last_play_time := now }, some e)

/-- C9: a raised detector call, an empty reply, and a first item missing the
    dominant field all make analyze return no result rather than an error,
    and feeding that absent result through the snapshot pipeline step leaves
    the playback state untouched (the smoother is not consulted at all in
    the snapshot loop, so no history changes either). -/
theorem analyze_failure_yields_none (st : PipelineState) (now : ℚ) (ig : Bool)
    (reply : RawReply)
    (h : reply = RawReply.raised ∨ reply = RawReply.value [] ∨
      ∃ item rest, reply = RawReply.value (item :: rest) ∧ item.dominant = none) :
    resultFromRaw reply = none ∧
    handleSnapshot st now ig (resultFromRaw reply) = (st, none) := by
  have hnone : resultFromRaw reply = none := by
    rcases h with rfl | rfl | ⟨item, rest, rfl, hdom⟩
    · rfl
    · rfl
    · simp [resultFromRaw, hdom]
  exact ⟨hnone, by rw [hnone]; rfl⟩

theorem analyze_failure_yields_none_witness :
    resultFromRaw RawReply.raised = none ∧
    handleSnapshot ⟨some "happy", 0⟩ 5 false (resultFromRaw RawReply.raised) =
      (⟨some "happy", 0⟩, none) :=
  analyze_failure_yields_none ⟨some "happy", 0⟩ 5 false RawReply.raised (Or.inl rfl)
